import Mathlib

/-!
Shallow embedding of `readme_extractor.py` (metadata-checker).

Text is modelled as `List Char` (one entry per Unicode code point, matching
Python's `str` indexing).  Regex substitutions from `normalize_text` are
embedded as recursive character-list transformations that reproduce the
left-to-right, non-overlapping, greedy behaviour of `re.sub` for the
particular patterns used by the source.
-/

namespace ReadmeExtractor

/-- Step 1 of `normalize_text` (line 62): `t.replace("\r", "\n")`. -/
def crToLf (t : List Char) : List Char :=
  t.map (fun c => if c = '\r' then '\n' else c)

/-- Step 2 of `normalize_text` (line 63): `re.sub(r"-\n", "", t)`.
Removes every non-overlapping occurrence of the two-character pattern
`-` followed by newline, scanning left to right. -/
def removeHyphenNewline : List Char → List Char
  | [] => []
  | [c] => [c]
  | a :: b :: rest =>
    if a = '-' ∧ b = '\n' then removeHyphenNewline rest
    else a :: removeHyphenNewline (b :: rest)

/-- The dash variants of line 64: U+2013 (en dash), U+2014 (em dash),
U+2212 (minus sign). -/
def isDashVariant (c : Char) : Bool :=
  c = '–' || c = '—' || c = '−'

/-- Step 3 of `normalize_text` (line 64): `re.sub(r"–|—|−", "-", t)`. -/
def dashNorm (t : List Char) : List Char :=
  t.map (fun c => if isDashVariant c then '-' else c)

/-- Space or tab, the character class `[ \t]` of line 65. -/
def isSpTab (c : Char) : Bool := c = ' ' || c = '\t'

/-- Step 4 of `normalize_text` (line 65): `re.sub(r"[ \t]+\n", "\n", t)`.
A character is deleted exactly when it is a space/tab whose following
characters are spaces/tabs up to a newline; this is equivalent to replacing
each maximal `[ \t]+` run directly before a newline by nothing. -/
def stripTWS : List Char → List Char
  | [] => []
  | c :: rest =>
    if isSpTab c ∧ (stripTWS rest).head? = some '\n' then stripTWS rest
    else c :: stripTWS rest

/-- Step 5 of `normalize_text` (line 66): `re.sub(r"\n{3,}", "\n\n", t)`.
Each maximal run of three or more newlines becomes exactly two; a leading
newline of a run is dropped whenever two more newlines follow in the
already-processed suffix. -/
def collapseNL : List Char → List Char
  | [] => []
  | c :: rest =>
    if c = '\n' ∧ (collapseNL rest).take 2 = ['\n', '\n'] then collapseNL rest
    else c :: collapseNL rest

/-- `normalize_text` (lines 61-67), the five substitutions in source order. -/
def normalize_text (t : List Char) : List Char :=
  collapseNL (stripTWS (dashNorm (removeHyphenNewline (crToLf t))))

/-- `t` contains the two-character pattern hyphen-newline. -/
def hasHyphenNL : List Char → Bool
  | [] => false
  | [_] => false
  | a :: b :: rest => (a = '-' && b = '\n') || hasHyphenNL (b :: rest)

/-- `t` contains a space or tab directly followed by a newline. -/
def hasTWSNL : List Char → Bool
  | [] => false
  | [_] => false
  | a :: b :: rest => (isSpTab a && b = '\n') || hasTWSNL (b :: rest)

/-- `t` contains three consecutive newlines. -/
def hasTripleNL : List Char → Bool
  | [] => false
  | [_] => false
  | [_, _] => false
  | a :: b :: c :: rest =>
    (a = '\n' && b = '\n' && c = '\n') || hasTripleNL (b :: c :: rest)

/-! ### Lemmas about the normalization stages -/

theorem crToLf_no_cr (t : List Char) : '\r' ∉ crToLf t := by
  intro h
  rcases List.mem_map.mp h with ⟨c, _, hc⟩
  by_cases h' : c = '\r' <;> simp [h'] at hc

theorem removeHyphenNewline_sublist (t : List Char) :
    List.Sublist (removeHyphenNewline t) t := by
  induction t using removeHyphenNewline.induct with
  | case1 => simp [removeHyphenNewline]
  | case2 c => simp [removeHyphenNewline]
  | case3 a b rest h ih =>
    rw [removeHyphenNewline, if_pos h]
    exact ih.trans ((List.sublist_cons_self b rest).trans
      (List.sublist_cons_self a (b :: rest)))
  | case4 a b rest h ih =>
    rw [removeHyphenNewline, if_neg h]
    exact ih.cons₂ a

theorem stripTWS_sublist (t : List Char) : List.Sublist (stripTWS t) t := by
  induction t with
  | nil => simp [stripTWS]
  | cons c rest ih =>
    rw [stripTWS]
    split
    · exact ih.trans (List.sublist_cons_self c rest)
    · exact ih.cons₂ c

theorem collapseNL_sublist (t : List Char) : List.Sublist (collapseNL t) t := by
  induction t with
  | nil => simp [collapseNL]
  | cons c rest ih =>
    rw [collapseNL]
    split
    · exact ih.trans (List.sublist_cons_self c rest)
    · exact ih.cons₂ c

theorem dashNorm_no_dash (t : List Char) :
    ∀ c ∈ dashNorm t, isDashVariant c = false := by
  intro c hc
  rcases List.mem_map.mp hc with ⟨d, _, hd⟩
  by_cases h' : isDashVariant d = true
  · rw [if_pos h'] at hd; subst hd; rfl
  · rw [if_neg h'] at hd; subst hd
    exact Bool.eq_false_iff.mpr h'

theorem dashNorm_no_cr (t : List Char) (h : '\r' ∉ t) : '\r' ∉ dashNorm t := by
  intro hm
  rcases List.mem_map.mp hm with ⟨d, hd, hde⟩
  by_cases h' : isDashVariant d = true
  · rw [if_pos h'] at hde; exact absurd hde.symm (by decide)
  · rw [if_neg h'] at hde; subst hde; exact h hd

theorem crToLf_eq_self (t : List Char) (h : '\r' ∉ t) : crToLf t = t := by
  induction t with
  | nil => rfl
  | cons c rest ih =>
    have hc : c ≠ '\r' := fun hc => h (hc ▸ List.mem_cons_self c rest)
    have hr : '\r' ∉ rest := fun hr => h (List.mem_cons_of_mem c hr)
    simp [crToLf, hc, List.map_cons] at ih ⊢
    exact ih hr

theorem removeHyphenNewline_eq_self (t : List Char)
    (h : hasHyphenNL t = false) : removeHyphenNewline t = t := by
  induction t using removeHyphenNewline.induct with
  | case1 => rfl
  | case2 c => rfl
  | case3 a b rest hab ih =>
    exfalso
    rw [hasHyphenNL] at h
    simp [hab.1, hab.2] at h
  | case4 a b rest hab ih =>
    rw [hasHyphenNL, Bool.or_eq_false_iff] at h
    rw [removeHyphenNewline, if_neg hab, ih h.2]

theorem dashNorm_eq_self (t : List Char)
    (h : ∀ c ∈ t, isDashVariant c = false) : dashNorm t = t := by
  induction t with
  | nil => rfl
  | cons c rest ih =>
    have hc : isDashVariant c = false := h c (List.mem_cons_self c rest)
    simp only [dashNorm, List.map_cons, hc, Bool.false_eq_true, if_false] at ih ⊢
    rw [ih (fun d hd => h d (List.mem_cons_of_mem c hd))]

theorem hasTWSNL_tail (a : Char) (l : List Char)
    (h : hasTWSNL (a :: l) = false) : hasTWSNL l = false := by
  cases l with
  | nil => rfl
  | cons b r =>
    rw [hasTWSNL, Bool.or_eq_false_iff] at h
    exact h.2

theorem hasTripleNL_tail (a : Char) (l : List Char)
    (h : hasTripleNL (a :: l) = false) : hasTripleNL l = false := by
  cases l with
  | nil => rfl
  | cons b r =>
    cases r with
    | nil => rfl
    | cons c r' =>
      rw [hasTripleNL, Bool.or_eq_false_iff] at h
      exact h.2

theorem stripTWS_eq_self (t : List Char)
    (h : hasTWSNL t = false) : stripTWS t = t := by
  induction t with
  | nil => rfl
  | cons c rest ih =>
    have hrest := ih (hasTWSNL_tail c rest h)
    rw [stripTWS, hrest, if_neg]
    rintro ⟨hsp, hhd⟩
    cases rest with
    | nil => simp at hhd
    | cons b r =>
      simp only [List.head?_cons, Option.some.injEq] at hhd
      rw [hasTWSNL, hhd, Bool.or_eq_false_iff] at h
      simp [hsp] at h

theorem collapseNL_eq_self (t : List Char)
    (h : hasTripleNL t = false) : collapseNL t = t := by
  induction t with
  | nil => rfl
  | cons c rest ih =>
    have hrest := ih (hasTripleNL_tail c rest h)
    rw [collapseNL, hrest, if_neg]
    rintro ⟨hc, htk⟩
    cases rest with
    | nil => simp at htk
    | cons b r =>
      cases r with
      | nil => simp at htk
      | cons b2 r2 =>
        have h2 : b = '\n' ∧ b2 = '\n' := by
          have hb := congrArg (fun l => List.head? l) htk
          have hb2 := congrArg (fun l => List.head? (List.tail l)) htk
          simp at hb hb2
          exact ⟨hb, hb2⟩
        rw [hasTripleNL, hc, h2.1, h2.2, Bool.or_eq_false_iff] at h
        simp at h

theorem hasTWSNL_stripTWS (t : List Char) : hasTWSNL (stripTWS t) = false := by
  induction t with
  | nil => rfl
  | cons c rest ih =>
    rw [stripTWS]
    split
    · exact ih
    · rename_i hneg
      cases hr : stripTWS rest with
      | nil => rfl
      | cons b r' =>
        rw [hr] at ih
        rw [hasTWSNL, ih, Bool.or_false, Bool.and_eq_false_iff]
        by_cases hb : b = '\n'
        · left
          rw [Bool.eq_false_iff]
          intro hsp
          exact hneg ⟨hsp, by rw [hr, hb, List.head?_cons]⟩
        · right; exact decide_eq_false hb

theorem collapseNL_head (t : List Char) (c : Char)
    (h : (collapseNL t).head? = some c) : t.head? = some c := by
  cases t with
  | nil => simp [collapseNL] at h
  | cons a rest =>
    rw [collapseNL] at h
    split at h
    · rename_i hpos
      have : (collapseNL rest).head? = some '\n' := by
        have := congrArg (fun l => List.head? l) hpos.2
        simpa [List.head?_take] using this
      rw [h] at this
      simp only [Option.some.injEq] at this
      rw [List.head?_cons, hpos.1, this]
    · rw [List.head?_cons] at h ⊢
      exact h

theorem hasTWSNL_collapseNL (t : List Char)
    (h : hasTWSNL t = false) : hasTWSNL (collapseNL t) = false := by
  induction t with
  | nil => rfl
  | cons c rest ih =>
    have ih' := ih (hasTWSNL_tail c rest h)
    rw [collapseNL]
    split
    · exact ih'
    · cases hr : collapseNL rest with
      | nil => rfl
      | cons b r' =>
        rw [hr] at ih'
        rw [hasTWSNL, ih', Bool.or_false, Bool.and_eq_false_iff]
        by_cases hb : b = '\n'
        · left
          rw [Bool.eq_false_iff]
          intro hsp
          have hhd : rest.head? = some '\n' := by
            apply collapseNL_head
            rw [hr, hb, List.head?_cons]
          cases rest with
          | nil => simp at hhd
          | cons d r2 =>
            simp only [List.head?_cons, Option.some.injEq] at hhd
            rw [hasTWSNL, hhd, Bool.or_eq_false_iff, Bool.and_eq_false_iff] at h
            rcases h.1 with h1 | h1
            · rw [hsp] at h1; exact absurd h1 (by decide)
            · exact absurd h1 (by decide)
        · right; exact decide_eq_false hb

theorem hasTripleNL_collapseNL (t : List Char) :
    hasTripleNL (collapseNL t) = false := by
  induction t with
  | nil => rfl
  | cons c rest ih =>
    rw [collapseNL]
    split
    · exact ih
    · rename_i hneg
      cases hr : collapseNL rest with
      | nil => rfl
      | cons b r' =>
        cases r' with
        | nil => rfl
        | cons b2 r2 =>
          rw [hr] at ih
          rw [hasTripleNL, ih, Bool.or_false]
          by_cases hc : c = '\n'
          · by_cases hb : b = '\n'
            · by_cases hb2 : b2 = '\n'
              · exfalso
                exact hneg ⟨hc, by rw [hr, hb, hb2]; rfl⟩
              · simp [hb2]
            · simp [hb]
          · simp [hc]

theorem normalize_no_cr (t : List Char) : '\r' ∉ normalize_text t := by
  intro h
  have h1 := (collapseNL_sublist _).subset h
  have h2 := (stripTWS_sublist _).subset h1
  exact dashNorm_no_cr _
    (fun hm => crToLf_no_cr t ((removeHyphenNewline_sublist _).subset hm)) h2

theorem normalize_no_dash (t : List Char) :
    ∀ c ∈ normalize_text t, isDashVariant c = false := by
  intro c hc
  have h1 := (collapseNL_sublist _).subset hc
  have h2 := (stripTWS_sublist _).subset h1
  exact dashNorm_no_dash _ c h2

theorem normalize_no_tws (t : List Char) :
    hasTWSNL (normalize_text t) = false :=
  hasTWSNL_collapseNL _ (hasTWSNL_stripTWS _)

theorem normalize_no_triple (t : List Char) :
    hasTripleNL (normalize_text t) = false :=
  hasTripleNL_collapseNL _

/-! ### Claim theorems for normalization -/

/-- C10: for every input string, the output of `normalize_text` contains no
carriage-return character, no space or tab immediately followed by a newline,
and no run of three or more consecutive newlines. -/
theorem normalize_text_output_clean (t : List Char) :
    '\r' ∉ normalize_text t ∧ hasTWSNL (normalize_text t) = false ∧
      hasTripleNL (normalize_text t) = false :=
  ⟨normalize_no_cr t, normalize_no_tws t, normalize_no_triple t⟩

/-- C1 counterexample: `normalize_text` is not idempotent.  On the input
`"- \x7bspace\x7d\n"`, the first pass strips the space before the newline and
produces `"-\n"`, and the second pass then deletes the hyphen-newline pair,
giving the empty string. -/
theorem normalize_text_not_idempotent :
    normalize_text (normalize_text ['-', ' ', '\n']) ≠
      normalize_text ['-', ' ', '\n'] := by decide

/-- C1 amended: `normalize_text` is idempotent on every input whose normalized
form contains no hyphen directly followed by a newline (the only pattern a
second pass can still rewrite). -/
theorem normalize_text_idempotent_of_no_hyphen_nl (t : List Char)
    (h : hasHyphenNL (normalize_text t) = false) :
    normalize_text (normalize_text t) = normalize_text t := by
  have hcr := crToLf_eq_self (normalize_text t) (normalize_no_cr t)
  have hrh := removeHyphenNewline_eq_self _ h
  have hdn := dashNorm_eq_self _ (normalize_no_dash t)
  have hst := stripTWS_eq_self _ (normalize_no_tws t)
  have hcl := collapseNL_eq_self _ (normalize_no_triple t)
  calc normalize_text (normalize_text t)
      = collapseNL (stripTWS (dashNorm (removeHyphenNewline
          (crToLf (normalize_text t))))) := rfl
    _ = normalize_text t := by rw [hcr, hrh, hdn, hst, hcl]

/-- Witness for the amended C1 at a concrete input. -/
theorem normalize_text_idempotent_witness :
    normalize_text (normalize_text ['a', '\r', '-', ' ', 'b']) =
      normalize_text ['a', '\r', '-', ' ', 'b'] :=
  normalize_text_idempotent_of_no_hyphen_nl ['a', '\r', '-', ' ', 'b'] (by decide)

/-! ### Sampling (`select_sample`, lines 70-76)

The source builds a fresh `random.Random(seed)` and calls `rnd.sample(paths,
k)`.  The pseudo-random generator itself is external library state, so it is
modelled as a parameter: a seeding function `g.seedState` (for
`random.Random(seed)`) and a state-passing `g.randbelow` (for the library's
internal `_randbelow(n)`, whose documented contract is to return a uniform
integer in `[0, n)`).  `rnd.sample` is embedded following the CPython
implementation: a pool-based partial shuffle when the population is small
relative to `k`, and otherwise rejection sampling of indices against a set of
already-selected indices.  The rejection loop terminates only with
probability 1, so it is given fuel and the whole call returns `Option`;
`none` models the probability-zero divergence of that loop. -/

/-- External pseudo-random generator interface used by `select_sample`:
`seedState seed` models `random.Random(seed)` and `randbelow s n` models
`rnd._randbelow(n)`, returning the drawn value and the next generator
state. -/
structure PRNG (σ : Type) where
  seedState : Int → σ
  randbelow : σ → Nat → Nat × σ

/-- The documented contract of `_randbelow(n)`: the result is `< n` whenever
`n > 0`. -/
def randbelowSpec {σ : Type} (rb : σ → Nat → Nat × σ) : Prop :=
  ∀ (s : σ) (n : Nat), 0 < n → (rb s n).1 < n

/-- Integer ceiling of `log` base 4, the exact version of CPython's
`_ceil(_log(m, 4))` used to size the selection set in `random.sample`. -/
def ceilLog4 (m : Nat) : Nat :=
  if m ≤ 1 then 0 else Nat.log 4 (m - 1) + 1

/-- `setsize` from CPython `random.sample`: `21`, plus `4 ** _ceil(_log(k *
3, 4))` when `k > 5`. -/
def setsize (k : Nat) : Nat :=
  if 5 < k then 21 + 4 ^ ceilLog4 (3 * k) else 21

/-- Pool branch of `random.sample`: `result[i] = pool[j]; pool[j] =
pool[n-i-1]` for `i` in `range(k)`, with `j = randbelow(n - i)`.  Here `m`
is the number of not-yet-selected entries at the front of the pool (`n - i`)
and the second argument of the recursion counts the draws still to make. -/
def samplePool {σ α : Type} [Inhabited α] (rb : σ → Nat → Nat × σ) :
    σ → List α → Nat → Nat → List α × σ
  | s, _, _, 0 => ([], s)
  | s, pool, m, r + 1 =>
    let j := (rb s m).1
    let s' := (rb s m).2
    let x := pool.getD j default
    let pool' := pool.set j (pool.getD (m - 1) default)
    let rest := samplePool rb s' pool' (m - 1) r
    (x :: rest.1, rest.2)

/-- The rejection loop `j = randbelow(n); while j in selected: j =
randbelow(n)` of the set branch of `random.sample`, with fuel. -/
def drawUnselected {σ : Type} (rb : σ → Nat → Nat × σ) (n : Nat) :
    σ → List Nat → Nat → Option (Nat × σ)
  | _, _, 0 => none
  | s, selected, fuel + 1 =>
    let j := (rb s n).1
    let s' := (rb s n).2
    if j ∈ selected then drawUnselected rb n s' selected fuel
    else some (j, s')

/-- Set branch of `random.sample`: draw `k` pairwise-distinct indices below
`n` by rejection, reading `result[i] = population[j]`. -/
def sampleSet {σ α : Type} [Inhabited α] (rb : σ → Nat → Nat × σ)
    (pop : List α) (n fuel : Nat) :
    σ → List Nat → Nat → Option (List α × σ)
  | s, _, 0 => some ([], s)
  | s, selected, r + 1 =>
    match drawUnselected rb n s selected fuel with
    | none => none
    | some (j, s') =>
      match sampleSet rb pop n fuel s' (j :: selected) r with
      | none => none
      | some (res, s'') => some (pop.getD j default :: res, s'')

/-- Fuel given to each run of the rejection loop. -/
def rejectionFuel : Nat := 1000

/-- `rnd.sample(population, k)` following CPython:  `ValueError` for `k >
n` is modelled as `none` (that path is unreachable from `select_sample`). -/
def sample {σ α : Type} [Inhabited α] (rb : σ → Nat → Nat × σ) (s : σ)
    (pop : List α) (k : Nat) : Option (List α) :=
  if pop.length < k then none
  else if pop.length ≤ setsize k then some (samplePool rb s pop pop.length k).1
  else (sampleSet rb pop pop.length rejectionFuel s [] k).map Prod.fst

/-- `select_sample` (lines 70-76).  `max_samples` is declared `int` in the
source, so the defensive `max_samples is None` test is vacuous and omitted.
Any mode other than `"first"` takes the seeded-random branch, exactly as in
the source. -/
def select_sample {σ α : Type} [Inhabited α] (g : PRNG σ) (paths : List α)
    (max_samples : Int) (mode : String) (seed : Int) : Option (List α) :=
  if max_samples ≤ 0 ∨ (paths.length : Int) ≤ max_samples then some paths
  else if mode = "first" then some (paths.take max_samples.toNat)
  else sample g.randbelow (g.seedState seed) paths max_samples.toNat

/-- One run of `select_sample` inside a Python process whose `random` module
holds a global generator in state `gstate`.  The function constructs a local
`random.Random(seed)` and never reads or advances the module-level
generator, so the ambient state is returned unchanged and the result does
not depend on it. -/
def select_sampleRun {σ α : Type} [Inhabited α] (g : PRNG σ) (gstate : σ)
    (paths : List α) (max_samples : Int) (mode : String) (seed : Int) :
    Option (List α) × σ :=
  (select_sample g paths max_samples mode seed, gstate)

/-- A concrete generator used to instantiate witnesses: `randbelow` reduces
the state modulo `n` and steps the state by one. -/
def modPRNG : PRNG Nat :=
  ⟨fun seed => seed.toNat, fun s n => (s % n, s + 1)⟩

theorem modPRNG_spec : randbelowSpec modPRNG.randbelow :=
  fun s _ h => Nat.mod_lt s h

/-- C2: `select_sample` returns the input list unchanged whenever the
requested size is non-positive or at least the length of the list, for every
generator, list, mode and seed (lines 71-72). -/
theorem select_sample_full {σ α : Type} [Inhabited α] (g : PRNG σ)
    (paths : List α) (max_samples : Int) (mode : String) (seed : Int)
    (h : max_samples ≤ 0 ∨ (paths.length : Int) ≤ max_samples) :
    select_sample g paths max_samples mode seed = some paths := by
  rw [select_sample, if_pos h]

/-- Witness for C2 at concrete inputs, in both the non-positive and the
too-large cases. -/
theorem select_sample_full_witness :
    select_sample modPRNG [3, 1, 2] (-1) "random" 9 = some [3, 1, 2] ∧
      select_sample modPRNG [3, 1, 2] 3 "random" 9 = some [3, 1, 2] := by
  constructor
  · exact select_sample_full modPRNG [3, 1, 2] (-1) "random" 9 (Or.inl (by decide))
  · exact select_sample_full modPRNG [3, 1, 2] 3 "random" 9 (Or.inr (by decide))

/-- C3: with `mode="first"` and `0 < max_samples < length`, `select_sample`
returns exactly the first `max_samples` elements, for every seed (lines
73-74). -/
theorem select_sample_first {σ α : Type} [Inhabited α] (g : PRNG σ)
    (paths : List α) (max_samples : Int) (seed : Int)
    (h1 : 0 < max_samples) (h2 : max_samples < (paths.length : Int)) :
    select_sample g paths max_samples "first" seed =
      some (paths.take max_samples.toNat) := by
  rw [select_sample, if_neg, if_pos rfl]
  push_neg
  exact ⟨h1, h2⟩

/-- Witness for C3 at concrete inputs; two different seeds give the same
first-two elements. -/
theorem select_sample_first_witness :
    select_sample modPRNG [3, 1, 2] 2 "first" 9 = some [3, 1] ∧
      select_sample modPRNG [3, 1, 2] 2 "first" 100 = some [3, 1] := by
  constructor
  · exact select_sample_first modPRNG [3, 1, 2] 2 9 (by decide) (by decide)
  · exact select_sample_first modPRNG [3, 1, 2] 2 100 (by decide) (by decide)

/-- C4: two runs of `select_sample` with `mode="random"`, the same paths,
size and seed, but arbitrary (possibly different) states of the module-level
generator, return the same result: the call seeds a fresh local
`random.Random(seed)`, so the outcome is a function of its arguments only. -/
theorem select_sample_reproducible {σ α : Type} [Inhabited α] (g : PRNG σ)
    (s₁ s₂ : σ) (paths : List α) (max_samples : Int) (seed : Int) :
    (select_sampleRun g s₁ paths max_samples "random" seed).1 =
      (select_sampleRun g s₂ paths max_samples "random" seed).1 := rfl

theorem getD_eq_elem {α : Type} [Inhabited α] (l : List α) (j : Nat)
    (h : j < l.length) : l.getD j default = l[j] := by
  rw [List.getD_eq_getElem?_getD, List.getElem?_eq_getElem h, Option.getD_some]

/-- One step of the pool branch removes exactly the drawn element from the
live region of the pool: the drawn element together with the new live region
is a permutation of the old live region. -/
theorem pool_step_perm {α : Type} [Inhabited α] (pool : List α) (j m : Nat)
    (hj : j < m) (hm : m ≤ pool.length) :
    List.Perm
      (pool.getD j default ::
        ((pool.set j (pool.getD (m - 1) default)).take (m - 1)))
      (pool.take m) := by
  have hm0 : 0 < m := Nat.lt_of_le_of_lt (Nat.zero_le j) hj
  have hj' : j < pool.length := Nat.lt_of_lt_of_le hj hm
  have hm1 : m - 1 < pool.length := Nat.lt_of_lt_of_le (by omega) hm
  have e1 : pool.getD j default = pool[j] := getD_eq_elem pool j hj'
  have e2 : pool.getD (m - 1) default = pool[m - 1] := getD_eq_elem pool (m - 1) hm1
  have htm : pool.take m = pool.take (m - 1) ++ [pool[m - 1]] := by
    conv_lhs => rw [show m = (m - 1) + 1 by omega]
    rw [List.take_succ, List.getElem?_eq_getElem hm1]
    rfl
  rw [e1, e2, List.set_take, htm]
  by_cases hcase : j = m - 1
  · subst hcase
    rw [List.set_eq_of_length_le (by rw [List.length_take]; omega)]
    exact (List.perm_append_singleton _ _).symm
  · have hjm1 : j < m - 1 := by omega
    have hjlt : j < (pool.take (m - 1)).length := by
      rw [List.length_take]; omega
    have e3 : (pool.take (m - 1))[j] = pool[j] := List.getElem_take pool
    rw [List.set_eq_take_cons_drop _ hjlt]
    refine (List.Perm.cons _ List.perm_middle).trans ?_
    refine (List.Perm.swap pool[m - 1] pool[j] _).trans ?_
    refine (List.Perm.cons _ List.perm_middle.symm).trans ?_
    have heq : (pool.take (m - 1)).take j ++
        pool[j] :: (pool.take (m - 1)).drop (j + 1) = pool.take (m - 1) := by
      rw [← e3, List.getElem_cons_drop (pool.take (m - 1)) j hjlt,
        List.take_append_drop]
    rw [heq]
    exact (List.perm_append_singleton _ _).symm

/-- Invariant of the pool branch: the result has one entry per draw and,
when the live region is duplicate-free, the result is duplicate-free and
drawn from the live region. -/
theorem samplePool_spec {σ α : Type} [Inhabited α] (rb : σ → Nat → Nat × σ)
    (hrb : randbelowSpec rb) :
    ∀ (r : Nat) (s : σ) (pool : List α) (m : Nat), r ≤ m → m ≤ pool.length →
      (samplePool rb s pool m r).1.length = r ∧
        ((pool.take m).Nodup →
          (samplePool rb s pool m r).1.Nodup ∧
            ∀ x ∈ (samplePool rb s pool m r).1, x ∈ pool.take m) := by
  intro r
  induction r with
  | zero =>
    intro s pool m _ _
    exact ⟨rfl, fun _ => ⟨List.nodup_nil, by intro x hx; simp [samplePool] at hx⟩⟩
  | succ r ih =>
    intro s pool m hrm hml
    have hm0 : 0 < m := by omega
    have hj : (rb s m).1 < m := hrb s m hm0
    have hstep : samplePool rb s pool m (r + 1) =
        (pool.getD (rb s m).1 default ::
          (samplePool rb (rb s m).2
            (pool.set (rb s m).1 (pool.getD (m - 1) default)) (m - 1) r).1,
         (samplePool rb (rb s m).2
            (pool.set (rb s m).1 (pool.getD (m - 1) default)) (m - 1) r).2) := rfl
    have hperm := pool_step_perm pool (rb s m).1 m hj hml
    have hml' : m - 1 ≤ (pool.set (rb s m).1 (pool.getD (m - 1) default)).length := by
      rw [List.length_set]; omega
    obtain ⟨ihlen, ihcond⟩ := ih (rb s m).2
      (pool.set (rb s m).1 (pool.getD (m - 1) default)) (m - 1) (by omega) hml'
    constructor
    · rw [hstep]; simpa using ihlen
    · intro hnd
      have hnd' := (hperm.symm.nodup_iff).mp hnd
      rw [List.nodup_cons] at hnd'
      obtain ⟨ihnd, ihmem⟩ := ihcond hnd'.2
      rw [hstep]
      constructor
      · rw [List.nodup_cons]
        exact ⟨fun hc => hnd'.1 (ihmem _ hc), ihnd⟩
      · intro x hx
        rcases List.mem_cons.mp hx with hx | hx
        · exact hperm.subset (hx ▸ List.mem_cons_self _ _)
        · exact hperm.subset (List.mem_cons_of_mem _ (ihmem x hx))

/-- A successful rejection draw yields an index below `n` that is not yet
selected. -/
theorem drawUnselected_spec {σ : Type} (rb : σ → Nat → Nat × σ)
    (hrb : randbelowSpec rb) (n : Nat) (hn : 0 < n) :
    ∀ (fuel : Nat) (s : σ) (selected : List Nat) (j : Nat) (s' : σ),
      drawUnselected rb n s selected fuel = some (j, s') →
      j < n ∧ j ∉ selected := by
  intro fuel
  induction fuel with
  | zero => intro s sel j s' h; simp [drawUnselected] at h
  | succ fuel ih =>
    intro s sel j s' h
    rw [drawUnselected] at h
    split at h
    · exact ih _ _ _ _ h
    · rename_i hmem
      simp only [Option.some.injEq, Prod.mk.injEq] at h
      obtain ⟨hj, _⟩ := h
      subst hj
      exact ⟨hrb s n hn, hmem⟩

/-- Invariant of the set branch: a successful run draws pairwise-distinct
indices below `n`, all outside the initially selected set, and reads the
population at those indices. -/
theorem sampleSet_spec {σ α : Type} [Inhabited α] (rb : σ → Nat → Nat × σ)
    (hrb : randbelowSpec rb) (pop : List α) (n fuel : Nat) (hn : 0 < n) :
    ∀ (r : Nat) (s : σ) (selected : List Nat) (res : List α) (s'' : σ),
      sampleSet rb pop n fuel s selected r = some (res, s'') →
      ∃ js : List Nat, res = js.map (fun j => pop.getD j default) ∧
        js.length = r ∧ js.Nodup ∧ ∀ j ∈ js, j < n ∧ j ∉ selected := by
  intro r
  induction r with
  | zero =>
    intro s sel res s'' h
    simp only [sampleSet, Option.some.injEq, Prod.mk.injEq] at h
    exact ⟨[], by simp [← h.1]⟩
  | succ r ih =>
    intro s sel res s'' h
    rw [sampleSet] at h
    split at h
    · exact absurd h (by simp)
    · rename_i j s' hd
      split at h
      · exact absurd h (by simp)
      · rename_i res' s2 hrec
        simp only [Option.some.injEq, Prod.mk.injEq] at h
        obtain ⟨hres, _⟩ := h
        obtain ⟨hjn, hjsel⟩ := drawUnselected_spec rb hrb n hn fuel s sel j s' hd
        obtain ⟨js, hm, hlen, hnd, hprop⟩ := ih s' (j :: sel) res' s2 hrec
        refine ⟨j :: js, ?_, ?_, ?_, ?_⟩
        · rw [← hres, hm]; rfl
        · simp [hlen]
        · rw [List.nodup_cons]
          exact ⟨fun hc => (hprop j hc).2 (List.mem_cons_self j sel), hnd⟩
        · intro j' hj'
          rcases List.mem_cons.mp hj' with hj' | hj'
          · exact hj' ▸ ⟨hjn, hjsel⟩
          · exact ⟨(hprop j' hj').1,
              fun hc => (hprop j' hj').2 (List.mem_cons_of_mem j hc)⟩

/-- Properties of every successful run of `rnd.sample(pop, k)` with `0 < k <
len(pop)` and duplicate-free `pop`: the result has exactly `k` elements of
`pop`, pairwise distinct. -/
theorem sample_spec {σ α : Type} [Inhabited α] (rb : σ → Nat → Nat × σ)
    (hrb : randbelowSpec rb) (s : σ) (pop : List α) (k : Nat)
    (_hk : 0 < k) (hkn : k < pop.length) (hnd : pop.Nodup) (res : List α)
    (h : sample rb s pop k = some res) :
    res.length = k ∧ res.Nodup ∧ ∀ x ∈ res, x ∈ pop := by
  rw [sample] at h
  rw [if_neg (by omega)] at h
  by_cases hss : pop.length ≤ setsize k
  · rw [if_pos hss] at h
    simp only [Option.some.injEq] at h
    obtain ⟨hlen, hcond⟩ :=
      samplePool_spec rb hrb k s pop pop.length (le_of_lt hkn) le_rfl
    rw [List.take_length] at hcond
    obtain ⟨hnodup, hmem⟩ := hcond hnd
    exact h ▸ ⟨hlen, hnodup, hmem⟩
  · rw [if_neg hss] at h
    cases hset : sampleSet rb pop pop.length rejectionFuel s [] k with
    | none => rw [hset] at h; exact absurd h (by simp)
    | some q =>
      obtain ⟨res', s''⟩ := q
      rw [hset] at h
      simp only [Option.map_some', Option.some.injEq] at h
      obtain ⟨js, hm, hlen, hndjs, hprop⟩ :=
        sampleSet_spec rb hrb pop pop.length rejectionFuel (by omega)
          k s [] res' s'' hset
      have hres : res = js.map (fun j => pop.getD j default) := by
        rw [← h]; exact hm
      refine ⟨?_, ?_, ?_⟩
      · rw [hres, List.length_map, hlen]
      · rw [hres]
        apply List.Nodup.map_on ?_ hndjs
        intro j₁ hj₁ j₂ hj₂ heq
        rw [getD_eq_elem pop j₁ (hprop j₁ hj₁).1,
          getD_eq_elem pop j₂ (hprop j₂ hj₂).1] at heq
        exact (List.Nodup.getElem_inj_iff hnd).mp heq
      · intro x hx
        rw [hres] at hx
        rcases List.mem_map.mp hx with ⟨j, hj, hje⟩
        rw [← hje, getD_eq_elem pop j (hprop j hj).1]
        exact List.getElem_mem _

/-- C5: for every duplicate-free list of paths and `0 < max_samples <
length`, every terminating run of `select_sample` with `mode="random"`
returns exactly `max_samples` pairwise-distinct elements of the input list
(sampling without replacement).  The external generator is assumed to meet
the `_randbelow` contract; divergence of the rejection loop (probability
zero, modelled as `none`) is the only excluded case. -/
theorem select_sample_random_spec {σ α : Type} [Inhabited α] (g : PRNG σ)
    (paths : List α) (max_samples : Int) (seed : Int) (res : List α)
    (hrb : randbelowSpec g.randbelow) (hnd : paths.Nodup)
    (h1 : 0 < max_samples) (h2 : max_samples < (paths.length : Int))
    (hres : select_sample g paths max_samples "random" seed = some res) :
    res.length = max_samples.toNat ∧ res.Nodup ∧ ∀ x ∈ res, x ∈ paths := by
  rw [select_sample, if_neg (by push_neg; exact ⟨h1, h2⟩),
    if_neg (by decide)] at hres
  exact sample_spec g.randbelow hrb (g.seedState seed) paths
    max_samples.toNat (by omega) (by omega) hnd res hres

/-- Witness for C5 at concrete inputs: with the `modPRNG` generator, seed 0,
and `max_samples = 2`, the run returns `[10, 20]`, which indeed has two
distinct elements of the input. -/
theorem select_sample_random_spec_witness :
    ([10, 20] : List Nat).length = (2 : Int).toNat ∧
      ([10, 20] : List Nat).Nodup ∧
      ∀ x ∈ ([10, 20] : List Nat), x ∈ [10, 20, 30, 40] :=
  select_sample_random_spec modPRNG [10, 20, 30, 40] 2 0 [10, 20]
    modPRNG_spec (by decide) (by decide) (by decide) (by decide)

/-! ### PDF text extraction (`pdf_to_text`, lines 25-58)

The two extraction libraries (`pdfminer.six` and `PyPDF2`) are external, so
their behaviour at the given path is a parameter of the embedding: an
optional may-raise function for `pdfminer.high_level.extract_text`
(`none` models the import failing in both `try` blocks of lines 26-32), and
a may-raise list of per-page results for `PyPDF2.PdfReader` (each page's
`extract_text()` may itself raise — the page is then skipped by the `pass`
of line 49 — or return `None`, mapped to `""` by `or ""`).  With all
exceptions of the libraries reified as `Except`, the wrappers are total:
they never raise. -/

/-- Python `str.strip()` with no arguments: remove leading and trailing
whitespace.  (`Char.isWhitespace` covers space, tab, newline and carriage
return; Python additionally strips the rarer Unicode space characters, which
none of the claims depend on.) -/
def pyStrip (t : List Char) : List Char :=
  ((t.dropWhile Char.isWhitespace).reverse.dropWhile Char.isWhitespace).reverse

/-- `_pdfminer_extract` (lines 25-38): empty string when the library is
unavailable or `extract_text` raises, its result otherwise. -/
def pdfminer_extract (lib : Option (List Char → Except Unit (List Char)))
    (path : List Char) : List Char :=
  match lib with
  | none => []
  | some f =>
    match f path with
    | Except.ok s => s
    | Except.error _ => []

/-- `_pypdf_extract` (lines 40-52): join the per-page texts with `"\n"`;
a page whose `extract_text()` raises is skipped, a page returning `None`
contributes `""`; reading the file may itself raise, giving `""`. -/
def pypdf_extract
    (rd : Except Unit (List (Except Unit (Option (List Char))))) :
    List Char :=
  match rd with
  | Except.error _ => []
  | Except.ok pages =>
    (List.intersperse ['\n']
      (pages.foldr (fun p acc =>
        match p with
        | Except.error _ => acc
        | Except.ok o => o.getD [] :: acc) [])).flatten

/-- The fallback test of line 56: `not txt or len(txt.strip()) < 60`. -/
def needs_fallback (txt : List Char) : Bool :=
  txt.isEmpty || decide ((pyStrip txt).length < 60)

/-- The fallback condition as the claim words it: primary output empty or
containing fewer than 60 non-whitespace characters. -/
def needs_fallback_claim (txt : List Char) : Bool :=
  txt.isEmpty ||
    decide ((txt.filter (fun c => !c.isWhitespace)).length < 60)

/-- `pdf_to_text` (lines 54-58).  (`return txt or ""` is the identity here:
both extractors already return strings.) -/
def pdf_to_text (lib : Option (List Char → Except Unit (List Char)))
    (rd : Except Unit (List (Except Unit (Option (List Char)))))
    (path : List Char) : List Char :=
  if needs_fallback (pdfminer_extract lib path) then pypdf_extract rd
  else pdfminer_extract lib path

/-- A primary-extractor output with only 2 non-whitespace characters but
strip-length 102: `"a"`, one hundred spaces, `"b"`. -/
def interiorWS : List Char := 'a' :: (List.replicate 100 ' ' ++ ['b'])

/-- C6 counterexample: the code falls back on `len(txt.strip()) < 60`, not
on "fewer than 60 non-whitespace characters".  On a primary output with two
non-whitespace characters separated by a hundred spaces, the claim requires
the fallback, but `pdf_to_text` keeps the primary output. -/
theorem pdf_to_text_fallback_cex :
    needs_fallback_claim interiorWS = true ∧
      needs_fallback interiorWS = false ∧
      pdf_to_text (some (fun _ => Except.ok interiorWS))
        (Except.ok [Except.ok (some ['F'])]) ['p'] = interiorWS := by
  refine ⟨by decide, by decide, ?_⟩
  rw [pdf_to_text, if_neg (by decide)]
  rfl

/-- C6 amended: the fallback is attempted exactly when the primary output is
empty or shorter than 60 characters after stripping leading and trailing
whitespace; if additionally both extractors produce empty output the result
is the empty string.  Totality of these functions (never raising) is by
construction: library exceptions are reified in their arguments. -/
theorem pdf_to_text_fallback (lib : Option (List Char → Except Unit (List Char)))
    (rd : Except Unit (List (Except Unit (Option (List Char)))))
    (path : List Char) :
    (pdfminer_extract lib path = [] ∨
        (pyStrip (pdfminer_extract lib path)).length < 60 →
      pdf_to_text lib rd path = pypdf_extract rd) ∧
    (¬(pdfminer_extract lib path = [] ∨
        (pyStrip (pdfminer_extract lib path)).length < 60) →
      pdf_to_text lib rd path = pdfminer_extract lib path) ∧
    (pdfminer_extract lib path = [] → pypdf_extract rd = [] →
      pdf_to_text lib rd path = []) := by
  have hb : needs_fallback (pdfminer_extract lib path) = true ↔
      (pdfminer_extract lib path = [] ∨
        (pyStrip (pdfminer_extract lib path)).length < 60) := by
    rw [needs_fallback, Bool.or_eq_true, decide_eq_true_eq, List.isEmpty_iff]
  refine ⟨?_, ?_, ?_⟩
  · intro h
    rw [pdf_to_text, if_pos (hb.mpr h)]
  · intro h
    rw [pdf_to_text, if_neg]
    intro hc
    exact h (hb.mp hc)
  · intro h1 h2
    rw [pdf_to_text, if_pos (hb.mpr (Or.inl h1)), h2]

/-- Witness for the amended C6: both extractors empty gives the empty
string, and a long primary output is returned as is. -/
theorem pdf_to_text_fallback_witness :
    pdf_to_text none (Except.error ()) [] = [] ∧
      pdf_to_text (some (fun _ => Except.ok (List.replicate 60 'x')))
        (Except.error ()) [] = List.replicate 60 'x' :=
  ⟨(pdf_to_text_fallback none (Except.error ()) []).2.2 rfl rfl,
    (pdf_to_text_fallback (some (fun _ => Except.ok (List.replicate 60 'x')))
      (Except.error ()) []).2.1 (by decide)⟩

/-! ### `_domain_of` (lines 85-91)

`urllib.parse.urlparse` is standard-library code external to this
repository; it is modelled as a parameter returning the `netloc` of the
parsed URL or raising (`urlparse` raises `ValueError` on, e.g., invalid
IPv6 URLs; the `try` of lines 87-91 catches it).  The `or ""` of line 88 is
the identity on strings and `.lower()` is `Char.toLower` per character. -/

/-- `_domain_of`: lower-cased `netloc` of the parsed URL, `""` when parsing
raises.  Total by construction — the only raising operation is reified in
`up`. -/
def domain_of (up : List Char → Except Unit (List Char))
    (url : List Char) : List Char :=
  match up url with
  | Except.error _ => []
  | Except.ok netloc => netloc.map Char.toLower

/-- C7: `_domain_of` never raises (it is a total function of the reified
parser outcome) and returns the empty string on every malformed URL —
whether the parser raises on it or yields no domain part. -/
theorem domain_of_malformed (up : List Char → Except Unit (List Char))
    (url : List Char) :
    (up url = Except.error () → domain_of up url = []) ∧
      (up url = Except.ok [] → domain_of up url = []) := by
  constructor
  · intro h; rw [domain_of, h]
  · intro h; rw [domain_of, h]; rfl

/-- Witness for C7: a parser that raises, and one that returns an empty
netloc, both yield `""`. -/
theorem domain_of_malformed_witness :
    domain_of (fun _ => Except.error ()) ['h', 't', 'x'] = [] ∧
      domain_of (fun _ => Except.ok []) ['h', 't', 'x'] = [] :=
  ⟨(domain_of_malformed (fun _ => Except.error ()) ['h', 't', 'x']).1 rfl,
    (domain_of_malformed (fun _ => Except.ok []) ['h', 't', 'x']).2 rfl⟩

/-! ### Visualization (`save_visualizations`, lines 93-219)

A record is modelled with the fields the function reads; `r.get(...) or []`
and `bool(r.get(...))` normalizations are already applied in the field
types.  Rendering is external (`matplotlib`), so the observable behaviour
embedded here is: whether the output directory is created, whether the
missing-library warning is printed, and which chart files are written, in
source order. -/

/-- One extraction record as consumed by `save_visualizations`. -/
structure Record where
  sources_mentions : List (List Char)
  dataset_candidates : List (List Char)
  urls : List (List Char)
  time_mentions : List (List Char)
  needs_review : Bool
  has_declaration : Bool
  availability_section_found : Bool

/-- ASCII word character, the `\w` class of the year regex (the source
compiles it against `str`, where `\w` also covers non-ASCII letters; the
claims here are insensitive to that difference). -/
def isWordChar (c : Char) : Bool := c.isAlphanum || c = '_'

/-- A position is a word boundary against `o`, the character on the other
side (`none` at the ends of the string). -/
def boundaryOk (o : Option Char) : Bool :=
  match o with
  | none => true
  | some p => !isWordChar p

/-- Numeric value of a digit character. -/
def digitVal (c : Char) : Nat := c.toNat - 48

/-- Left-to-right scan of `re.findall(r"\b((?:19|20)\d{2})\b", t)` (line
138), tracking the previous character for the word-boundary test and
resuming after each non-overlapping match. -/
def findYearsAux : Option Char → List Char → List Nat
  | _, [] => []
  | prev, a :: b :: c :: d :: rest2 =>
    if boundaryOk prev && ((a = '1' && b = '9') || (a = '2' && b = '0')) &&
        c.isDigit && d.isDigit && boundaryOk rest2.head? then
      (1000 * digitVal a + 100 * digitVal b + 10 * digitVal c + digitVal d) ::
        findYearsAux (some d) rest2
    else findYearsAux (some a) (b :: c :: d :: rest2)
  | _, a :: rest => findYearsAux (some a) rest

/-- All year mentions of one text fragment. -/
def findYears (t : List Char) : List Nat := findYearsAux none t

/-- Items counted into `source_counter` (lines 119-121): non-empty source
mentions across all records. -/
def sourceItems (rs : List Record) : List (List Char) :=
  (rs.map (fun r => r.sources_mentions.filter (fun s => !s.isEmpty))).flatten

/-- Items counted into `dataset_counter` (lines 123-125). -/
def datasetItems (rs : List Record) : List (List Char) :=
  (rs.map (fun r => r.dataset_candidates.filter (fun s => !s.isEmpty))).flatten

/-- Items counted into `domain_counter` (lines 127-132): non-empty domains
of the records' URLs. -/
def domainItems (up : List Char → Except Unit (List Char))
    (rs : List Record) : List (List Char) :=
  (rs.map (fun r =>
    (r.urls.map (domain_of up)).filter (fun d => !d.isEmpty))).flatten

/-- `url_count_list` (line 128): one entry per record, its URL count. -/
def urlCountList (rs : List Record) : List Nat :=
  rs.map (fun r => r.urls.length)

/-- `year_list` (lines 134-139): all year mentions in all time mentions. -/
def yearList (rs : List Record) : List Nat :=
  (rs.map (fun r => (r.time_mentions.map findYears).flatten)).flatten

/-- Keys tallied into `needs_review_counter` (line 141): one entry (the
flag, standing for `str(bool(...))`) per record. -/
def needsReviewKeys (rs : List Record) : List Bool :=
  rs.map (fun r => r.needs_review)

/-- Keys tallied into `has_decl_counter` (line 142); the source counts them
but renders no chart from this counter. -/
def hasDeclKeys (rs : List Record) : List Bool :=
  rs.map (fun r => r.has_declaration)

/-- Keys tallied into `has_avail_counter` (line 143); the source counts
them but renders no chart from this counter. -/
def hasAvailKeys (rs : List Record) : List Bool :=
  rs.map (fun r => r.availability_section_found)

/-- The chart files written by lines 145-219, in source order.  Charts 1-4
and 6 are guarded by non-emptiness of their data; chart 5 (years) is also
guarded by `len(sorted(set(year_list))) >= 2` (line 198). -/
def chartFiles (up : List Char → Except Unit (List Char))
    (rs : List Record) : List String :=
  (if sourceItems rs = [] then [] else ["sources_top20.png"]) ++
  (if datasetItems rs = [] then [] else ["datasets_top20.png"]) ++
  (if domainItems up rs = [] then [] else ["domains_top20.png"]) ++
  (if urlCountList rs = [] then [] else ["urls_per_file_hist.png"]) ++
  (if yearList rs = [] then []
   else if 2 ≤ (yearList rs).eraseDups.length then ["years_hist.png"]
   else []) ++
  (if needsReviewKeys rs = [] then [] else ["needs_review_bar.png"])

/-- Observable outcome of `save_visualizations`. -/
structure VizResult where
  mkdirCalled : Bool
  warned : Bool
  charts : List String
deriving DecidableEq

/-- `save_visualizations` (lines 93-219): the output directory is created
first (line 97); if the plotting library is unavailable a warning is
printed and no chart is produced (lines 98-101); otherwise the guarded
charts are written. -/
def save_visualizations (mpl : Bool)
    (up : List Char → Except Unit (List Char)) (rs : List Record) :
    VizResult :=
  if mpl then ⟨true, false, chartFiles up rs⟩
  else ⟨true, true, []⟩

/-- C8: when the plotting library is unavailable, `save_visualizations`
warns, writes no chart, and returns normally (it is a total function), for
every parser and record list. -/
theorem save_visualizations_no_mpl
    (up : List Char → Except Unit (List Char)) (rs : List Record) :
    save_visualizations false up rs =
      ⟨true, true, ([] : List String)⟩ := rfl

/-- A record whose only content is one time mention, `"in 2020"`. -/
def yearOnlyRecord : Record :=
  ⟨[], [], [], [['i', 'n', ' ', '2', '0', '2', '0']], false, false, false⟩

/-- A parser stub for the counterexample; no URLs are present, so it is
never consulted. -/
def upStub : List Char → Except Unit (List Char) := fun _ => Except.ok []

/-- C9 counterexample: with one record mentioning a single year, the year
counter is non-empty, yet no years chart is written — line 198 additionally
requires at least two distinct years.  (The `has_decl`/`has_avail` counters
are likewise non-empty here but have no chart at all.) -/
theorem chartFiles_cex :
    yearList [yearOnlyRecord] ≠ [] ∧
      "years_hist.png" ∉ chartFiles upStub [yearOnlyRecord] ∧
      hasDeclKeys [yearOnlyRecord] ≠ [] := by
  refine ⟨by decide, ?_, by decide⟩
  decide

/-- C9 amended: exactly six metrics have charts (`has_decl_counter` and
`has_avail_counter` are tallied but never rendered); charts for sources,
datasets, domains, URL counts and the needs-review flag are written exactly
when their counter is non-empty, the years chart exactly when the year list
is non-empty *and* contains at least two distinct years; no chart is
written twice. -/
theorem chartFiles_spec (up : List Char → Except Unit (List Char))
    (rs : List Record) :
    ("sources_top20.png" ∈ chartFiles up rs ↔ sourceItems rs ≠ []) ∧
    ("datasets_top20.png" ∈ chartFiles up rs ↔ datasetItems rs ≠ []) ∧
    ("domains_top20.png" ∈ chartFiles up rs ↔ domainItems up rs ≠ []) ∧
    ("urls_per_file_hist.png" ∈ chartFiles up rs ↔ urlCountList rs ≠ []) ∧
    ("years_hist.png" ∈ chartFiles up rs ↔
      (yearList rs ≠ [] ∧ 2 ≤ (yearList rs).eraseDups.length)) ∧
    ("needs_review_bar.png" ∈ chartFiles up rs ↔ needsReviewKeys rs ≠ []) ∧
    (chartFiles up rs).Nodup := by
  rw [chartFiles]
  split_ifs <;> simp_all

end ReadmeExtractor
